import Mathlib

/-!
Verification of the JavaScript-DesignPatterns repository against its
specification.  The repository's Memento example (TextEditorMemento,
TextEditor, MyHistory), Mediator example and Singleton Logger are embedded
shallowly below; the specification's generalized undo/redo History Manager,
which has no implementation in the repository, is modelled from the spec's
words where noted.
-/

/-- Memento class from the Memento example (src/unnamed/part_012): wraps a
captured text-editor state string, returned by getState. -/
structure TextEditorMemento where
  state : String
deriving DecidableEq

/-- getState returns the stored state. -/
def TextEditorMemento.getState (m : TextEditorMemento) : String := m.state

/-- Originator class from the Memento example: a text editor holding a text
string, initially empty. -/
structure TextEditor where
  text : String
deriving DecidableEq

/-- The TextEditor constructor: text starts as the empty string. -/
def TextEditor.new : TextEditor := ⟨""⟩

/-- getText returns the editor's text. -/
def TextEditor.getText (e : TextEditor) : String := e.text

/-- setText replaces the editor's text. -/
def TextEditor.setText (e : TextEditor) (t : String) : TextEditor :=
  { e with text := t }

/-- createMemento captures the current text in a fresh memento. -/
def TextEditor.createMemento (e : TextEditor) : TextEditorMemento :=
  ⟨e.text⟩

/-- restoreFromMemento sets the editor's text to the memento's stored state. -/
def TextEditor.restoreFromMemento (e : TextEditor) (m : TextEditorMemento) :
    TextEditor :=
  { e with text := m.getState }

/-- Applying a whole sequence of setText calls in order. -/
def TextEditor.setTexts (e : TextEditor) (ts : List String) : TextEditor :=
  ts.foldl TextEditor.setText e

/-- Caretaker class MyHistory from the Memento example: an append-only list
of mementos. -/
structure MyHistory where
  mementos : List TextEditorMemento
deriving DecidableEq

/-- The MyHistory constructor: the memento list starts empty. -/
def MyHistory.new : MyHistory := ⟨[]⟩

/-- addMemento pushes a memento at the end of the list. -/
def MyHistory.addMemento (h : MyHistory) (m : TextEditorMemento) : MyHistory :=
  ⟨h.mementos ++ [m]⟩

/-- getMemento indexes the memento array.  JavaScript array indexing yields
undefined for any out-of-range index (negative or beyond the end), modelled
here as none. -/
def MyHistory.getMemento (h : MyHistory) (index : Int) :
    Option TextEditorMemento :=
  if index < 0 then none else h.mementos.get? index.toNat

/-- C8: getMemento is total: on an in-range index it returns the memento
stored at that index, and on every other integer index (negative or at
least the length) it returns none.  The embedding is a pure function on
the history value, so the memento sequence is left unchanged by
construction. -/
theorem myHistory_getMemento_spec (h : MyHistory) (i : Int) :
    (0 ≤ i → i < (h.mementos.length : Int) →
      ∃ m, MyHistory.getMemento h i = some m ∧
        h.mementos.get? i.toNat = some m) ∧
    ((i < 0 ∨ (h.mementos.length : Int) ≤ i) →
      MyHistory.getMemento h i = none) := by
  constructor
  · intro h0 hlen
    have hlt : i.toNat < h.mementos.length := by omega
    refine ⟨h.mementos.get ⟨i.toNat, hlt⟩, ?_, ?_⟩
    · have : ¬ i < 0 := by omega
      simp [MyHistory.getMemento, this, List.get?_eq_get hlt]
    · exact List.get?_eq_get hlt
  · intro hcase
    rcases hcase with hneg | hbig
    · simp [MyHistory.getMemento, hneg]
    · have hnneg : ¬ i < 0 := by omega
      simp [MyHistory.getMemento, hnneg, List.get?_eq_none]
      omega

/-- Witness for C8: a two-element history evaluated at an in-range and an
out-of-range index. -/
theorem myHistory_getMemento_spec_witness :
    (∃ m, MyHistory.getMemento ⟨[⟨"a"⟩, ⟨"b"⟩]⟩ 1 = some m ∧
      (⟨[⟨"a"⟩, ⟨"b"⟩]⟩ : MyHistory).mementos.get? (1 : Int).toNat = some m) ∧
    MyHistory.getMemento ⟨[⟨"a"⟩, ⟨"b"⟩]⟩ (-1) = none :=
  ⟨(myHistory_getMemento_spec ⟨[⟨"a"⟩, ⟨"b"⟩]⟩ 1).1 (by decide) (by decide),
   (myHistory_getMemento_spec ⟨[⟨"a"⟩, ⟨"b"⟩]⟩ (-1)).2 (Or.inl (by decide))⟩

/-- C9: mementos round-trip the editor state and are immune to later edits:
after setText t1 and creating a memento, any further sequence of setText
calls followed by restoreFromMemento yields getText = t1; and the memento
created at t1 stores exactly t1 (mementos are immutable values in this
embedding, so the stored state never changes after creation). -/
theorem textEditor_memento_roundtrip (t1 : String) (ts : List String) :
    (((TextEditor.new.setText t1).setTexts ts).restoreFromMemento
        ((TextEditor.new.setText t1).createMemento)).getText = t1 ∧
    ((TextEditor.new.setText t1).createMemento).getState = t1 := by
  exact ⟨rfl, rfl⟩

/-- A smart-home component from the Mediator example, identified by a unique
object id (modelling JavaScript reference identity of separately constructed
components) together with its class name, which sendMessage uses as the
message prefix. -/
structure Component where
  id : Nat
  name : String
deriving DecidableEq

/-- The concrete mediator: an ordered list of registered components. -/
structure ConcreteHomeAutomationMediator where
  components : List Component
deriving DecidableEq

/-- addComponent pushes a component at the end of the registration list. -/
def ConcreteHomeAutomationMediator.addComponent
    (m : ConcreteHomeAutomationMediator) (c : Component) :
    ConcreteHomeAutomationMediator :=
  ⟨m.components ++ [c]⟩

/-- sendMessage from the source: iterates the registered components in
order, skips the sender, and delivers the formatted message to each of the
others.  Modelled as the list of (recipient, delivered message) pairs in
delivery order. -/
def ConcreteHomeAutomationMediator.sendMessage
    (m : ConcreteHomeAutomationMediator) (sender : Component)
    (message : String) : List (Component × String) :=
  (m.components.filter (fun c => decide (c ≠ sender))).map
    (fun c => (c, sender.name ++ ": " ++ message))

/-- Counterexample to C7 as stated: with the Light registered first and the
Thermostat second, a send from the Light delivers to nobody but the
Thermostat — the sender, though registered, receives nothing, so the
message is not delivered to all registered components. -/
theorem mediator_sendMessage_skips_sender :
    (⟨[⟨0, "Light"⟩, ⟨1, "Thermostat"⟩]⟩ :
        ConcreteHomeAutomationMediator).components.count ⟨0, "Light"⟩ = 1 ∧
    ((((⟨[⟨0, "Light"⟩, ⟨1, "Thermostat"⟩]⟩ :
        ConcreteHomeAutomationMediator).sendMessage ⟨0, "Light"⟩ "on").map
        Prod.fst).count ⟨0, "Light"⟩) = 0 := by
  exact ⟨by decide, by decide⟩

/-- C7 (amended): sendMessage delivers the formatted message to every
registered component other than the sender, in registration order (the
recipient list is a sublist of the registration list), and when the
registered components are pairwise distinct each such recipient receives
the message exactly once per send. -/
theorem mediator_sendMessage_spec (cs : List Component) (sender : Component)
    (message : String) :
    List.Sublist
      (((ConcreteHomeAutomationMediator.mk cs).sendMessage sender
        message).map Prod.fst) cs ∧
    (∀ c, c ∈ ((ConcreteHomeAutomationMediator.mk cs).sendMessage sender
        message).map Prod.fst ↔ c ∈ cs ∧ c ≠ sender) ∧
    (∀ p ∈ (ConcreteHomeAutomationMediator.mk cs).sendMessage sender message,
        p.2 = sender.name ++ ": " ++ message) ∧
    (cs.Nodup → ∀ c ∈ cs, c ≠ sender →
      (((ConcreteHomeAutomationMediator.mk cs).sendMessage sender
        message).map Prod.fst).count c = 1) := by
  have hmap : ((ConcreteHomeAutomationMediator.mk cs).sendMessage sender
      message).map Prod.fst = cs.filter (fun c => decide (c ≠ sender)) := by
    simp only [ConcreteHomeAutomationMediator.sendMessage, List.map_map]
    exact List.map_id _
  refine ⟨?_, ?_, ?_, ?_⟩
  · rw [hmap]; exact List.filter_sublist cs
  · intro c
    rw [hmap]
    simp [List.mem_filter]
  · intro p hp
    obtain ⟨c, hc, rfl⟩ := List.mem_map.mp hp
    rfl
  · intro hnd c hc hne
    rw [hmap]
    exact List.count_eq_one_of_mem (hnd.filter _)
      (List.mem_filter.mpr ⟨hc, by simp [hne]⟩)

/-- Witness for C7's amended theorem at a concrete mediator state. -/
theorem mediator_sendMessage_spec_witness :
    ((((ConcreteHomeAutomationMediator.mk
        [⟨0, "Light"⟩, ⟨1, "Thermostat"⟩]).sendMessage ⟨0, "Light"⟩
        "on").map Prod.fst).count ⟨1, "Thermostat"⟩) = 1 :=
  (mediator_sendMessage_spec [⟨0, "Light"⟩, ⟨1, "Thermostat"⟩] ⟨0, "Light"⟩
    "on").2.2.2 (by decide) ⟨1, "Thermostat"⟩ (by decide) (by decide)

/-- The Logger from the Singleton example.  Each construction of a Logger
carries a distinct allocation id, so separately constructed instances can
be told apart in the model. -/
structure Logger where
  id : Nat
deriving DecidableEq

/-- The static state of the Logger class: the cached singleton instance
(initially null) together with the id the next construction would use,
which counts the constructions performed so far. -/
structure LoggerStatics where
  inst : Option Logger
  nextId : Nat
deriving DecidableEq

/-- The initial static state: the cached instance is null and no Logger has
been constructed. -/
def LoggerStatics.initial : LoggerStatics := ⟨none, 0⟩

/-- getInstance from the source: when the cached instance is null it
constructs a Logger, caches and returns it; otherwise it returns the cached
instance and performs no construction. -/
def Logger.getInstance : LoggerStatics → Logger × LoggerStatics
  | ⟨none, n⟩ => (⟨n⟩, ⟨some ⟨n⟩, n + 1⟩)
  | ⟨some l, n⟩ => (l, ⟨some l, n⟩)

/-- A sequence of k getInstance calls threading the static state,
collecting the returned loggers in call order. -/
def Logger.getInstanceCalls : Nat → LoggerStatics → List Logger × LoggerStatics
  | 0, s => ([], s)
  | k + 1, s =>
    let r := Logger.getInstance s
    let rest := Logger.getInstanceCalls k r.2
    (r.1 :: rest.1, rest.2)

/-- Once the instance is cached, every later getInstance call returns it and
leaves the static state unchanged. -/
theorem logger_getInstanceCalls_cached (k : Nat) (l : Logger) (n : Nat) :
    Logger.getInstanceCalls k ⟨some l, n⟩ = (List.replicate k l, ⟨some l, n⟩) := by
  induction k with
  | zero => rfl
  | succ m ih =>
    simp [Logger.getInstanceCalls, Logger.getInstance, ih, List.replicate]

/-- C10: starting from the initial static state, any sequence of at least
one getInstance call returns the very same Logger from every call, and the
final static state caches that Logger with exactly one construction
performed (nextId = 1); every call after the first performs no
construction. -/
theorem logger_getInstance_singleton (k : Nat) (hk : 1 ≤ k) :
    (Logger.getInstanceCalls k LoggerStatics.initial).1 =
      List.replicate k ⟨0⟩ ∧
    (Logger.getInstanceCalls k LoggerStatics.initial).2 = ⟨some ⟨0⟩, 1⟩ ∧
    (∀ l1 ∈ (Logger.getInstanceCalls k LoggerStatics.initial).1,
      ∀ l2 ∈ (Logger.getInstanceCalls k LoggerStatics.initial).1, l1 = l2) := by
  obtain ⟨m, rfl⟩ : ∃ m, k = m + 1 := ⟨k - 1, by omega⟩
  have hstep : Logger.getInstanceCalls (m + 1) LoggerStatics.initial =
      (List.replicate (m + 1) ⟨0⟩, ⟨some ⟨0⟩, 1⟩) := by
    simp [Logger.getInstanceCalls, Logger.getInstance, LoggerStatics.initial,
      logger_getInstanceCalls_cached, List.replicate_succ]
  refine ⟨?_, ?_, ?_⟩
  · rw [hstep]
  · rw [hstep]
  · intro l1 h1 l2 h2
    rw [hstep] at h1 h2
    have e1 : l1 = ⟨0⟩ := List.eq_of_mem_replicate h1
    have e2 : l2 = ⟨0⟩ := List.eq_of_mem_replicate h2
    rw [e1, e2]

/-- Witness for C10 at three consecutive getInstance calls. -/
theorem logger_getInstance_singleton_witness :
    (Logger.getInstanceCalls 3 LoggerStatics.initial).1 =
      List.replicate 3 ⟨0⟩ ∧
    (Logger.getInstanceCalls 3 LoggerStatics.initial).2 = ⟨some ⟨0⟩, 1⟩ :=
  ⟨(logger_getInstance_singleton 3 (by decide)).1,
   (logger_getInstance_singleton 3 (by decide)).2.1⟩

/-- The single error kind of the History Manager, carrying its message. -/
structure NoHistoryError where
  msg : String
deriving DecidableEq

/-- Modelled from the spec: the generalized undo/redo History Manager of
spec sections 3-4 (an ordered snapshot sequence plus an integer cursor,
with save / undo / redo / current / clear).  The repository's MyHistory
class offers only addMemento and getMemento; the cursor and the undo/redo
operations have no implementation in the source, so they are embedded here
from the spec's words.  Snapshots are opaque: the type parameter is never
inspected. -/
structure HistoryManager (α : Type) where
  snapshots : List α
  position : Int
deriving DecidableEq

/-- Modelled from the spec: the empty history, position -1. -/
def HistoryManager.empty (α : Type) : HistoryManager α :=
  ⟨[], -1⟩

/-- Modelled from the spec: save discards all entries after the current
cursor, appends the snapshot, and sets the cursor to the new last index. -/
def HistoryManager.save (h : HistoryManager α) (s : α) : HistoryManager α :=
  let kept := h.snapshots.take (h.position + 1).toNat
  ⟨kept ++ [s], (kept.length : Int)⟩

/-- Modelled from the spec: undo fails with NoHistoryError when
position <= 0 and leaves the state unchanged; otherwise it decrements the
cursor by 1 and returns the snapshot now at the cursor.  The call is
modelled as (result, state after the call). -/
def HistoryManager.undo (h : HistoryManager α) :
    Except NoHistoryError (Option α) × HistoryManager α :=
  if h.position ≤ 0 then (Except.error ⟨"nothing to undo"⟩, h)
  else (Except.ok (h.snapshots.get? (h.position - 1).toNat),
        { h with position := h.position - 1 })

/-- Modelled from the spec: redo fails with NoHistoryError when the history
is empty or position >= length - 1; otherwise it increments the cursor by 1
and returns the snapshot now at the cursor. -/
def HistoryManager.redo (h : HistoryManager α) :
    Except NoHistoryError (Option α) × HistoryManager α :=
  if h.snapshots.length = 0 ∨ (h.snapshots.length : Int) - 1 ≤ h.position
  then (Except.error ⟨"nothing to redo"⟩, h)
  else (Except.ok (h.snapshots.get? (h.position + 1).toNat),
        { h with position := h.position + 1 })

/-- Modelled from the spec: current returns the snapshot at the cursor, or
none on the empty history (position -1). -/
def HistoryManager.current (h : HistoryManager α) : Option α :=
  if h.position < 0 then none else h.snapshots.get? h.position.toNat

/-- Modelled from the spec: clear resets to the empty state. -/
def HistoryManager.clear (_h : HistoryManager α) : HistoryManager α :=
  ⟨[], -1⟩

/-- The spec's cursor invariant: position lies in the range
[-1, length - 1]. -/
def HistoryManager.Inv (h : HistoryManager α) : Prop :=
  -1 ≤ h.position ∧ h.position < (h.snapshots.length : Int)

/-- C1: on every history state, if position <= 0 (including the empty
history, position -1) then undo fails with NoHistoryError and returns the
state completely unchanged (the failing branch is atomic); otherwise undo
decrements position by exactly 1, returns the snapshot at the new
position, and under the cursor invariant that snapshot exists. -/
theorem historyManager_undo_spec (α : Type) (h : HistoryManager α) :
    (h.position ≤ 0 →
      h.undo = (Except.error ⟨"nothing to undo"⟩, h)) ∧
    (0 < h.position →
      h.undo = (Except.ok (h.snapshots.get? (h.position - 1).toNat),
        { h with position := h.position - 1 }) ∧
      (h.Inv → (h.snapshots.get? (h.position - 1).toNat).isSome = true)) := by
  constructor
  · intro hle
    simp [HistoryManager.undo, hle]
  · intro hgt
    have hnle : ¬ h.position ≤ 0 := by omega
    refine ⟨by simp [HistoryManager.undo, hnle], ?_⟩
    rintro ⟨_, hlt⟩
    have hidx : (h.position - 1).toNat < h.snapshots.length := by omega
    rw [List.get?_eq_get hidx]
    rfl

/-- Witness for C1: the failing branch on the empty history and the
succeeding branch on a two-snapshot history with the cursor at index 1. -/
theorem historyManager_undo_spec_witness :
    ((HistoryManager.empty String).undo =
      (Except.error ⟨"nothing to undo"⟩, HistoryManager.empty String)) ∧
    ((⟨["a", "b"], 1⟩ : HistoryManager String).undo =
      (Except.ok ((["a", "b"] : List String).get? ((1 : Int) - 1).toNat),
        ⟨["a", "b"], (1 : Int) - 1⟩)) :=
  ⟨(historyManager_undo_spec String (HistoryManager.empty String)).1
      (by decide),
   ((historyManager_undo_spec String ⟨["a", "b"], 1⟩).2 (by decide)).1⟩

/-- C3: save on any state whose cursor is not at the last index keeps
exactly the snapshots at indices up to the cursor, discards every snapshot
at a larger index, appends the new snapshot, and sets the cursor to the new
last index; immediately afterwards redo fails with NoHistoryError leaving
the state unchanged, and current returns the newly saved snapshot. -/
theorem historyManager_save_truncates (α : Type) (h : HistoryManager α)
    (s : α) (hmid : h.position < (h.snapshots.length : Int) - 1) :
    (h.save s).snapshots =
      h.snapshots.take (h.position + 1).toNat ++ [s] ∧
    (h.save s).position = ((h.save s).snapshots.length : Int) - 1 ∧
    (h.save s).redo = (Except.error ⟨"nothing to redo"⟩, h.save s) ∧
    (h.save s).current = some s := by
  refine ⟨rfl, ?_, ?_, ?_⟩
  · simp [HistoryManager.save]
  · have hsnap : (h.save s).snapshots =
        h.snapshots.take (h.position + 1).toNat ++ [s] := rfl
    have hp : (h.save s).position =
        ((h.snapshots.take (h.position + 1).toNat).length : Int) := rfl
    have hguard : ((h.save s).snapshots.length = 0 ∨
        ((h.save s).snapshots.length : Int) - 1 ≤ (h.save s).position) := by
      right
      rw [hsnap, hp, List.length_append]
      push_cast [List.length_singleton]
      omega
    unfold HistoryManager.redo
    rw [if_pos hguard]
  · have hpos : ¬ (h.save s).position < 0 := by
      simp [HistoryManager.save]
    rw [HistoryManager.current, if_neg hpos]
    show ((h.snapshots.take (h.position + 1).toNat ++ [s]).get?
      ((h.snapshots.take (h.position + 1).toNat).length : Int).toNat) = some s
    rw [Int.toNat_natCast]
    exact List.get?_concat_length _ s

/-- Witness for C3: saving into a three-snapshot history whose cursor sits
at index 0 after two undos. -/
theorem historyManager_save_truncates_witness :
    ((⟨["a", "b", "c"], 0⟩ : HistoryManager String).save "d").snapshots =
      (["a", "b", "c"] : List String).take ((0 : Int) + 1).toNat ++ ["d"] ∧
    ((⟨["a", "b", "c"], 0⟩ : HistoryManager String).save "d").position =
      ((((⟨["a", "b", "c"], 0⟩ : HistoryManager String).save
        "d").snapshots.length : Int)) - 1 ∧
    ((⟨["a", "b", "c"], 0⟩ : HistoryManager String).save "d").redo =
      (Except.error ⟨"nothing to redo"⟩,
        (⟨["a", "b", "c"], 0⟩ : HistoryManager String).save "d") ∧
    ((⟨["a", "b", "c"], 0⟩ : HistoryManager String).save "d").current =
      some "d" :=
  historyManager_save_truncates String ⟨["a", "b", "c"], 0⟩ "d" (by decide)

/-- Modelled from the spec: the calls a caller can make on the History
Manager. -/
inductive HistOp (α : Type) where
  | save (s : α)
  | undo
  | redo
  | current
  | clear
deriving DecidableEq

/-- The value one History Manager call returns: nothing (save, clear), a
navigation result (undo, redo), or the current snapshot query result. -/
inductive HistRes (α : Type) where
  | done
  | nav (r : Except NoHistoryError (Option α))
  | cur (r : Option α)

/-- One History Manager call as a state transformer, returning the call's
result alongside the state after the call. -/
def HistoryManager.step (h : HistoryManager α) :
    HistOp α → HistRes α × HistoryManager α
  | HistOp.save s => (HistRes.done, h.save s)
  | HistOp.undo => (HistRes.nav h.undo.1, h.undo.2)
  | HistOp.redo => (HistRes.nav h.redo.1, h.redo.2)
  | HistOp.current => (HistRes.cur h.current, h)
  | HistOp.clear => (HistRes.done, h.clear)

/-- Running a call sequence from a given state, keeping the final state. -/
def HistoryManager.runFrom (h : HistoryManager α) (ops : List (HistOp α)) :
    HistoryManager α :=
  ops.foldl (fun g op => (g.step op).2) h

/-- Running a call sequence from the empty history. -/
def HistoryManager.run (α : Type) (ops : List (HistOp α)) : HistoryManager α :=
  HistoryManager.runFrom (HistoryManager.empty α) ops

/-- C4: the cursor invariant position in [-1, length - 1] is preserved by
every single History Manager call, and therefore holds in every state
reachable from the empty history by any call sequence. -/
theorem historyManager_inv_reachable (α : Type) :
    (∀ (h : HistoryManager α) (op : HistOp α), h.Inv → ((h.step op).2).Inv) ∧
    (∀ ops : List (HistOp α), (HistoryManager.run α ops).Inv) := by
  have hstep : ∀ (h : HistoryManager α) (op : HistOp α),
      h.Inv → ((h.step op).2).Inv := by
    intro h op hinv
    obtain ⟨h1, h2⟩ := hinv
    cases op with
    | save s =>
      constructor
      · show (-1 : Int) ≤ ((h.snapshots.take (h.position + 1).toNat).length : Int)
        omega
      · show ((h.snapshots.take (h.position + 1).toNat).length : Int) <
          ((h.snapshots.take (h.position + 1).toNat ++ [s]).length : Int)
        rw [List.length_append]
        push_cast [List.length_singleton]
        omega
    | undo =>
      by_cases hle : h.position ≤ 0
      · have heq : ((h.step HistOp.undo).2) = h := by
          show h.undo.2 = h
          unfold HistoryManager.undo
          rw [if_pos hle]
        rw [heq]
        exact ⟨h1, h2⟩
      · have heq : ((h.step HistOp.undo).2) =
            { h with position := h.position - 1 } := by
          show h.undo.2 = _
          unfold HistoryManager.undo
          rw [if_neg hle]
        rw [heq]
        show -1 ≤ h.position - 1 ∧ h.position - 1 < (h.snapshots.length : Int)
        omega
    | redo =>
      by_cases hfail : (h.snapshots.length = 0 ∨
          (h.snapshots.length : Int) - 1 ≤ h.position)
      · have heq : ((h.step HistOp.redo).2) = h := by
          show h.redo.2 = h
          unfold HistoryManager.redo
          rw [if_pos hfail]
        rw [heq]
        exact ⟨h1, h2⟩
      · have heq : ((h.step HistOp.redo).2) =
            { h with position := h.position + 1 } := by
          show h.redo.2 = _
          unfold HistoryManager.redo
          rw [if_neg hfail]
        rw [heq]
        show -1 ≤ h.position + 1 ∧ h.position + 1 < (h.snapshots.length : Int)
        push_neg at hfail
        omega
    | current => exact ⟨h1, h2⟩
    | clear =>
      show -1 ≤ (-1 : Int) ∧ (-1 : Int) < ((List.length ([] : List α)) : Int)
      norm_num
  refine ⟨hstep, ?_⟩
  have hrunFrom : ∀ (ops : List (HistOp α)) (h : HistoryManager α),
      h.Inv → (h.runFrom ops).Inv := by
    intro ops
    induction ops with
    | nil => intro h hi; exact hi
    | cons op rest ih => intro h hi; exact ih _ (hstep h op hi)
  intro ops
  refine hrunFrom ops (HistoryManager.empty α) ?_
  show -1 ≤ (-1 : Int) ∧ (-1 : Int) < ((List.length ([] : List α)) : Int)
  norm_num

/-- Witness for C4: one undo step on a one-snapshot state, and a concrete
two-call run from the empty history. -/
theorem historyManager_inv_reachable_witness :
    (((⟨["a"], 0⟩ : HistoryManager String).step HistOp.undo).2).Inv ∧
    (HistoryManager.run String [HistOp.save "a", HistOp.undo]).Inv :=
  ⟨(historyManager_inv_reachable String).1 ⟨["a"], 0⟩ HistOp.undo
      ⟨by decide, by decide⟩,
   (historyManager_inv_reachable String).2 [HistOp.save "a", HistOp.undo]⟩

/-- C5: every History Manager call leaves the snapshot sequence equal to a
prefix of the old sequence followed by at most one appended snapshot: every
surviving snapshot keeps the index it had, so the sequence is only
truncated from the tail or appended to, never reordered. -/
theorem historyManager_step_prefix (α : Type) (h : HistoryManager α)
    (op : HistOp α) :
    ∃ (kept : Nat) (appended : List α), kept ≤ h.snapshots.length ∧
      appended.length ≤ 1 ∧
      ((h.step op).2).snapshots = h.snapshots.take kept ++ appended := by
  cases op with
  | save s =>
    refine ⟨min (h.position + 1).toNat h.snapshots.length, [s],
      min_le_right _ _, le_refl _, ?_⟩
    show h.snapshots.take (h.position + 1).toNat ++ [s] = _
    by_cases hle : (h.position + 1).toNat ≤ h.snapshots.length
    · rw [min_eq_left hle]
    · rw [min_eq_right (by omega), List.take_length,
        List.take_all_of_le (by omega)]
  | undo =>
    have hsn : ((h.step HistOp.undo).2).snapshots = h.snapshots := by
      show h.undo.2.snapshots = h.snapshots
      unfold HistoryManager.undo
      split <;> rfl
    exact ⟨h.snapshots.length, [], le_refl _, Nat.zero_le _,
      by rw [hsn, List.take_length, List.append_nil]⟩
  | redo =>
    have hsn : ((h.step HistOp.redo).2).snapshots = h.snapshots := by
      show h.redo.2.snapshots = h.snapshots
      unfold HistoryManager.redo
      split <;> rfl
    exact ⟨h.snapshots.length, [], le_refl _, Nat.zero_le _,
      by rw [hsn, List.take_length, List.append_nil]⟩
  | current =>
    exact ⟨h.snapshots.length, [], le_refl _, Nat.zero_le _,
      by rw [List.take_length, List.append_nil]; rfl⟩
  | clear =>
    exact ⟨0, [], Nat.zero_le _, Nat.zero_le _, rfl⟩

/-- Saving a whole list of snapshots in order into the fresh (empty)
history. -/
def HistoryManager.saves (α : Type) (ss : List α) : HistoryManager α :=
  ss.foldl HistoryManager.save (HistoryManager.empty α)

/-- Applying undo k times, keeping only the state after each call. -/
def HistoryManager.undos (h : HistoryManager α) : Nat → HistoryManager α
  | 0 => h
  | k + 1 => (h.undo.2).undos k

/-- A save on a state whose cursor sits at the last index truncates nothing
and appends. -/
theorem historyManager_save_at_end (α : Type) (l : List α) (s : α) :
    HistoryManager.save ⟨l, (l.length : Int) - 1⟩ s =
      ⟨l ++ [s], ((l ++ [s]).length : Int) - 1⟩ := by
  unfold HistoryManager.save
  have htake : ((l.length : Int) - 1 + 1).toNat = l.length := by omega
  simp only [htake, List.take_length]
  congr 1
  rw [List.length_append]
  push_cast [List.length_singleton]
  omega

/-- Folding save over a snapshot list extends the sequence at the tail and
leaves the cursor at the last index. -/
theorem historyManager_foldl_save (α : Type) (ss l : List α) :
    ss.foldl HistoryManager.save ⟨l, (l.length : Int) - 1⟩ =
      ⟨l ++ ss, ((l ++ ss).length : Int) - 1⟩ := by
  induction ss generalizing l with
  | nil => simp
  | cons s rest ih =>
    show rest.foldl HistoryManager.save
        (HistoryManager.save ⟨l, (l.length : Int) - 1⟩ s) = _
    rw [historyManager_save_at_end, ih (l ++ [s])]
    simp

/-- n saves from the empty history yield exactly the saved sequence with
the cursor on its last element. -/
theorem historyManager_saves_eq (α : Type) (ss : List α) :
    HistoryManager.saves α ss = ⟨ss, (ss.length : Int) - 1⟩ := by
  have h0 : HistoryManager.empty α =
      ⟨([] : List α), (((List.length ([] : List α)) : Int)) - 1⟩ := by
    unfold HistoryManager.empty
    norm_num
  unfold HistoryManager.saves
  rw [h0, historyManager_foldl_save]
  simp

/-- An undo on a state with a positive cursor decrements the cursor and
returns the element before it. -/
theorem historyManager_undo_pos (α : Type) (l : List α) (p : Int)
    (hp : 0 < p) :
    (⟨l, p⟩ : HistoryManager α).undo =
      (Except.ok (l.get? (p - 1).toNat), ⟨l, p - 1⟩) := by
  have hneg : ¬ (p ≤ 0) := by omega
  show (if p ≤ 0 then _ else _) = _
  rw [if_neg hneg]

/-- k undos from cursor p (k <= p) leave the sequence untouched and move
the cursor down by k. -/
theorem historyManager_undos_eq (α : Type) (k : Nat) (l : List α) (p : Int)
    (hk : (k : Int) ≤ p) :
    HistoryManager.undos (⟨l, p⟩ : HistoryManager α) k = ⟨l, p - k⟩ := by
  induction k generalizing p with
  | zero => simp [HistoryManager.undos]
  | succ m ih =>
    have hunf : HistoryManager.undos (⟨l, p⟩ : HistoryManager α) (m + 1) =
        HistoryManager.undos ((⟨l, p⟩ : HistoryManager α).undo.2) m := rfl
    have hstep : (⟨l, p⟩ : HistoryManager α).undo.2 = ⟨l, p - 1⟩ := by
      rw [historyManager_undo_pos α l p (by omega)]
    rw [hunf, hstep, ih (p - 1) (by omega)]
    congr 1
    omega

/-- Counterexample to C2 as stated: after a single save (n = 1) the claim
demands exactly one successful undo, but the very first undo already
fails with NoHistoryError, because the modelled spec's undo refuses
whenever position <= 0 and one save leaves position = 0. -/
theorem historyManager_one_save_undo_fails :
    (HistoryManager.saves String ["a"]).current = some "a" ∧
    (HistoryManager.saves String ["a"]).undo =
      (Except.error ⟨"nothing to undo"⟩, HistoryManager.saves String ["a"]) := by
  exact ⟨rfl, rfl⟩

/-- C2 (amended): after save(s1), ..., save(sn) on a fresh history (n >= 1),
current() returns sn, each of the first n - 1 undo calls succeeds, and the
n-th undo call fails with NoHistoryError. -/
theorem historyManager_saves_then_undos (α : Type) (ss : List α)
    (hne : ss ≠ []) :
    (HistoryManager.saves α ss).current = ss.getLast? ∧
    (∀ k : Nat, k + 1 < ss.length →
      ∃ r, ((HistoryManager.saves α ss).undos k).undo.1 = Except.ok r) ∧
    ((HistoryManager.saves α ss).undos (ss.length - 1)).undo.1 =
      Except.error ⟨"nothing to undo"⟩ := by
  have hn : 0 < ss.length := List.length_pos.mpr hne
  rw [historyManager_saves_eq]
  refine ⟨?_, ?_, ?_⟩
  · show (if (ss.length : Int) - 1 < 0 then none
      else ss.get? ((ss.length : Int) - 1).toNat) = ss.getLast?
    rw [if_neg (by omega), List.getLast?_eq_get?]
    congr 1
    omega
  · intro k hk
    rw [historyManager_undos_eq α k ss ((ss.length : Int) - 1) (by omega)]
    rw [historyManager_undo_pos α ss ((ss.length : Int) - 1 - k) (by omega)]
    exact ⟨_, rfl⟩
  · rw [historyManager_undos_eq α (ss.length - 1) ss ((ss.length : Int) - 1)
      (by omega)]
    have hzero : ((ss.length : Int) - 1 - ((ss.length - 1 : Nat) : Int)) = 0 := by
      omega
    rw [hzero]
    rfl

/-- Witness for C2's amended theorem on two saved snapshots: current is the
second snapshot, the first undo succeeds, the second fails. -/
theorem historyManager_saves_then_undos_witness :
    (HistoryManager.saves String ["a", "b"]).current =
      (["a", "b"] : List String).getLast? ∧
    (∃ r, ((HistoryManager.saves String ["a", "b"]).undos 0).undo.1 =
      Except.ok r) ∧
    ((HistoryManager.saves String ["a", "b"]).undos
      ((["a", "b"] : List String).length - 1)).undo.1 =
      Except.error ⟨"nothing to undo"⟩ :=
  ⟨(historyManager_saves_then_undos String ["a", "b"] (by decide)).1,
   (historyManager_saves_then_undos String ["a", "b"] (by decide)).2.1 0
     (by decide),
   (historyManager_saves_then_undos String ["a", "b"] (by decide)).2.2⟩

/-- Modelled from the spec: one History Manager call as a transition
relation between states, relating a pre-state and a call to the returned
result and the post-state, with one constructor per branch of the spec's
operation descriptions (save appends after truncation; undo and redo each
have a failing guard and a cursor move; current reads; clear resets). -/
inductive HStep {α : Type} :
    HistoryManager α → HistOp α → HistRes α → HistoryManager α → Prop where
  | save (h : HistoryManager α) (s : α) :
      HStep h (HistOp.save s) HistRes.done (h.save s)
  | undoFail (h : HistoryManager α) (hle : h.position ≤ 0) :
      HStep h HistOp.undo
        (HistRes.nav (Except.error ⟨"nothing to undo"⟩)) h
  | undoOk (h : HistoryManager α) (hgt : 0 < h.position) :
      HStep h HistOp.undo
        (HistRes.nav (Except.ok (h.snapshots.get? (h.position - 1).toNat)))
        { h with position := h.position - 1 }
  | redoFail (h : HistoryManager α)
      (hend : h.snapshots.length = 0 ∨
        (h.snapshots.length : Int) - 1 ≤ h.position) :
      HStep h HistOp.redo
        (HistRes.nav (Except.error ⟨"nothing to redo"⟩)) h
  | redoOk (h : HistoryManager α) (hne : h.snapshots.length ≠ 0)
      (hlt : h.position < (h.snapshots.length : Int) - 1) :
      HStep h HistOp.redo
        (HistRes.nav (Except.ok (h.snapshots.get? (h.position + 1).toNat)))
        { h with position := h.position + 1 }
  | current (h : HistoryManager α) :
      HStep h HistOp.current (HistRes.cur h.current) h
  | clear (h : HistoryManager α) :
      HStep h HistOp.clear HistRes.done ⟨[], -1⟩

/-- Modelled from the spec: a run of the History Manager from a start state
through a call sequence to a final state, collecting every call's result. -/
inductive HRun {α : Type} :
    HistoryManager α → List (HistOp α) → HistoryManager α →
      List (HistRes α) → Prop where
  | nil (h : HistoryManager α) : HRun h [] h []
  | cons {h m hfin : HistoryManager α} {op : HistOp α} {r : HistRes α}
      {ops : List (HistOp α)} {rs : List (HistRes α)} :
      HStep h op r m → HRun m ops hfin rs →
      HRun h (op :: ops) hfin (r :: rs)

/-- A single History Manager call admits exactly one result and one
post-state. -/
theorem hstep_deterministic {α : Type} {h : HistoryManager α} {op : HistOp α}
    {r1 r2 : HistRes α} {h1 h2 : HistoryManager α}
    (s1 : HStep h op r1 h1) (s2 : HStep h op r2 h2) : r1 = r2 ∧ h1 = h2 := by
  cases s1 with
  | save s => cases s2 with
    | save => exact ⟨rfl, rfl⟩
  | undoFail hle => cases s2 with
    | undoFail => exact ⟨rfl, rfl⟩
    | undoOk hgt => omega
  | undoOk hgt => cases s2 with
    | undoFail hle => omega
    | undoOk => exact ⟨rfl, rfl⟩
  | redoFail hend => cases s2 with
    | redoFail => exact ⟨rfl, rfl⟩
    | redoOk hne hlt =>
      rcases hend with hz | hge <;> omega
  | redoOk hne hlt => cases s2 with
    | redoFail hend => rcases hend with hz | hge <;> omega
    | redoOk => exact ⟨rfl, rfl⟩
  | current => cases s2 with
    | current => exact ⟨rfl, rfl⟩
  | clear => cases s2 with
    | clear => exact ⟨rfl, rfl⟩

/-- The executable step function realizes the transition relation: the
relation is total and agrees with the state transformer on every call. -/
theorem hstep_agrees_step (α : Type) (h : HistoryManager α) (op : HistOp α) :
    HStep h op ((h.step op).1) ((h.step op).2) := by
  cases op with
  | save s => exact HStep.save h s
  | undo =>
    by_cases hle : h.position ≤ 0
    · have heq : h.step HistOp.undo =
          (HistRes.nav (Except.error ⟨"nothing to undo"⟩), h) := by
        show (HistRes.nav h.undo.1, h.undo.2) = _
        unfold HistoryManager.undo
        rw [if_pos hle]
      rw [heq]
      exact HStep.undoFail h hle
    · have heq : h.step HistOp.undo =
          (HistRes.nav (Except.ok (h.snapshots.get? (h.position - 1).toNat)),
            { h with position := h.position - 1 }) := by
        show (HistRes.nav h.undo.1, h.undo.2) = _
        unfold HistoryManager.undo
        rw [if_neg hle]
      rw [heq]
      exact HStep.undoOk h (by omega)
  | redo =>
    by_cases hend : (h.snapshots.length = 0 ∨
        (h.snapshots.length : Int) - 1 ≤ h.position)
    · have heq : h.step HistOp.redo =
          (HistRes.nav (Except.error ⟨"nothing to redo"⟩), h) := by
        show (HistRes.nav h.redo.1, h.redo.2) = _
        unfold HistoryManager.redo
        rw [if_pos hend]
      rw [heq]
      exact HStep.redoFail h hend
    · have heq : h.step HistOp.redo =
          (HistRes.nav (Except.ok (h.snapshots.get? (h.position + 1).toNat)),
            { h with position := h.position + 1 }) := by
        show (HistRes.nav h.redo.1, h.redo.2) = _
        unfold HistoryManager.redo
        rw [if_neg hend]
      rw [heq]
      push_neg at hend
      exact HStep.redoOk h hend.1 hend.2
  | current => exact HStep.current h
  | clear => exact HStep.clear h

/-- C6: the History Manager is deterministic: any two runs of the same call
sequence from the empty history end with equal snapshot sequences, equal
cursor values, and identical results at every call. -/
theorem historyManager_deterministic (α : Type) (ops : List (HistOp α))
    (h1 h2 : HistoryManager α) (rs1 rs2 : List (HistRes α))
    (run1 : HRun (HistoryManager.empty α) ops h1 rs1)
    (run2 : HRun (HistoryManager.empty α) ops h2 rs2) :
    h1.snapshots = h2.snapshots ∧ h1.position = h2.position ∧ rs1 = rs2 := by
  have main : ∀ (l : List (HistOp α)) (g g1 g2 : HistoryManager α)
      (vs1 vs2 : List (HistRes α)), HRun g l g1 vs1 → HRun g l g2 vs2 →
      g1 = g2 ∧ vs1 = vs2 := by
    intro l
    induction l with
    | nil =>
      intro g g1 g2 vs1 vs2 r1 r2
      cases r1
      cases r2
      exact ⟨rfl, rfl⟩
    | cons op rest ih =>
      intro g g1 g2 vs1 vs2 r1 r2
      cases r1 with
      | cons s1 t1 =>
        cases r2 with
        | cons s2 t2 =>
          obtain ⟨hr, hm⟩ := hstep_deterministic s1 s2
          rw [← hm] at t2
          obtain ⟨hfin, hvs⟩ := ih _ _ _ _ _ t1 t2
          exact ⟨hfin, by rw [hr, hvs]⟩
  obtain ⟨he, hrs⟩ :=
    main ops (HistoryManager.empty α) h1 h2 rs1 rs2 run1 run2
  exact ⟨by rw [he], by rw [he], hrs⟩

/-- Witness for C6: two identical two-call runs (save then a failing undo)
from the empty history. -/
theorem historyManager_deterministic_witness :
    ((HistoryManager.empty String).save "a").snapshots =
      ((HistoryManager.empty String).save "a").snapshots ∧
    ((HistoryManager.empty String).save "a").position =
      ((HistoryManager.empty String).save "a").position ∧
    ([HistRes.done, HistRes.nav (Except.error ⟨"nothing to undo"⟩)] :
      List (HistRes String)) =
      [HistRes.done, HistRes.nav (Except.error ⟨"nothing to undo"⟩)] :=
  historyManager_deterministic String [HistOp.save "a", HistOp.undo]
    ((HistoryManager.empty String).save "a")
    ((HistoryManager.empty String).save "a")
    [HistRes.done, HistRes.nav (Except.error ⟨"nothing to undo"⟩)]
    [HistRes.done, HistRes.nav (Except.error ⟨"nothing to undo"⟩)]
    (HRun.cons (HStep.save _ "a")
      (HRun.cons (HStep.undoFail _ (by decide)) (HRun.nil _)))
    (HRun.cons (HStep.save _ "a")
      (HRun.cons (HStep.undoFail _ (by decide)) (HRun.nil _)))
